import Mathlib

/-! go-short: a verification development for `main.go`

The program is a URL shortener with two HTTP handlers over one SQL table
`urls (id, url, short_code)`:

* `urlHandler` (main.go 98-119) resolves a short code and redirects;
* `addUrlHandler` (main.go 136-176) finds or creates the short code of a URL.

Embedding.

* Go strings are Lean `String`s (sequences of code points).
* The process-wide variables `con` and `baseUrl` become explicit arguments: the
  table state `DB`, the storage errors injected into the request (`Faults`) and the
  base url string.
* A handler returns an `Outcome`: the response writer after the handler ran, the
  table after it ran and the SQL statements it issued, in order.
* The SQL engine is outside the repository.  It is modelled as a list of rows in
  insertion order with an auto-increment counter; `WHERE col = ?` is exact string
  equality and `LIMIT 1` keeps the first matching row.  A statement that fails
  leaves the table as it was.
* Record identifiers are mathematical integers.  `strconv.FormatInt` is modelled on
  all of them; on the `int64` values Go passes it is the library function.
* `log.Println` lines are not modelled: no handler result depends on them.
-/

namespace GoShort

/-! ## Go library: `strings` -/

/-- Whether the character `c` occurs in `cutset`. -/
def inCutset (cutset : String) (c : Char) : Bool :=
  cutset.data.contains c

/-- Go `strings.TrimLeft`: drop the leading characters contained in `cutset`. -/
def TrimLeft (s cutset : String) : String :=
  ⟨s.data.dropWhile (inCutset cutset)⟩

/-- Go `strings.TrimRight`: drop the trailing characters contained in `cutset`. -/
def TrimRight (s cutset : String) : String :=
  ⟨s.data.rdropWhile (inCutset cutset)⟩

/-- Go `strings.Trim`: drop leading and trailing characters contained in `cutset`. -/
def Trim (s cutset : String) : String :=
  TrimLeft (TrimRight s cutset) cutset

/-! ## Go library: `strconv.FormatInt` -/

/-- The digit table of package `strconv`. -/
def digits : String := "0123456789abcdefghijklmnopqrstuvwxyz"

/-- The byte `digits[i]`. -/
def digitAt (i : Nat) : Char :=
  digits.data.getD i '0'

/-- The general-case loop of `strconv.formatBits`:
`for u >= b { q := u / b; a[i] = digits[u-q*b]; u = q }; a[i] = digits[u]`.
The first argument bounds the number of iterations; `formatBits` starts it at `u`,
which the loop never exhausts before `u < b` (for `b ≥ 2`). -/
def formatBitsLoop (b : Nat) : Nat → Nat → List Char → List Char
  | 0, u, a => digitAt u :: a
  | fuel + 1, u, a =>
    if u ≥ b then
      let q := u / b
      formatBitsLoop b fuel q (digitAt (u - q * b) :: a)
    else
      digitAt u :: a

/-- Go `strconv.formatBits` for a magnitude `u`, a base in `2..36` and a sign flag. -/
def formatBits (u : Nat) (base : Nat) (neg : Bool) : String :=
  let a := formatBitsLoop base u u []
  ⟨if neg then '-' :: a else a⟩

/-- Go `strconv.FormatInt(i, base)`: the magnitude of `i` in the given base, with a
leading minus sign when `i < 0`. -/
def FormatInt (i : Int) (base : Nat) : String :=
  formatBits i.natAbs base (decide (i < 0))

/-! ## Go library: `net/http` -/

/-- The part of `http.ResponseWriter` the handlers use.  `status` is `none` until the
header has been written. -/
structure ResponseWriter where
  header : List (String × String) := []
  status : Option Nat := none
  body : String := ""
deriving DecidableEq, Repr

namespace ResponseWriter

/-- Go `w.Header().Add(key, value)`; it has no effect once the header is written. -/
def HeaderAdd (w : ResponseWriter) (key value : String) : ResponseWriter :=
  match w.status with
  | none => { w with header := w.header ++ [(key, value)] }
  | some _ => w

/-- Go `w.WriteHeader(code)`; only the first call counts. -/
def WriteHeader (w : ResponseWriter) (code : Nat) : ResponseWriter :=
  match w.status with
  | none => { w with status := some code }
  | some _ => w

/-- Go `fmt.Fprintln(w, s)`: writes `s` and a newline; a write before `WriteHeader`
sends status 200 first. -/
def Fprintln (w : ResponseWriter) (s : String) : ResponseWriter :=
  let w1 := w.WriteHeader 200
  { w1 with body := w1.body ++ s ++ "\n" }

/-- The values of the header `key`, in order. -/
def HeaderValues (w : ResponseWriter) (key : String) : List String :=
  (w.header.filter (fun kv => kv.1 == key)).map Prod.snd

end ResponseWriter

/-- The part of `http.Request` the handlers read (besides what is only logged):
the url path and the parsed query string. -/
structure Request where
  Path : String
  Query : List (String × String) := []
deriving DecidableEq, Repr

/-- Go `r.URL.Query().Get(key)`: the first value of `key`, or the empty string. -/
def Request.QueryGet (r : Request) (key : String) : String :=
  match r.Query.find? (fun kv => kv.1 == key) with
  | some kv => kv.2
  | none => ""

/-! ## Storage: the table `urls` -/

/-- A row of `urls`; `short_code` is `none` while the column is NULL. -/
structure UrlRecord where
  id : Int
  url : String
  short_code : Option String
deriving DecidableEq, Repr

/-- The table `urls`: its rows in insertion order and the next auto-increment value. -/
structure DB where
  rows : List UrlRecord
  autoIncrement : Int
deriving DecidableEq, Repr

/-- The empty table. -/
def DB.empty : DB := { rows := [], autoIncrement := 1 }

/-- The constraints the schema puts on every table state: `id` is an auto-increment
primary key, so the ids are pairwise distinct and below the counter. -/
def DB.Valid (db : DB) : Prop :=
  (∀ r ∈ db.rows, r.id < db.autoIncrement) ∧ (db.rows.map UrlRecord.id).Nodup

instance (db : DB) : Decidable db.Valid := by
  unfold DB.Valid; exact inferInstance

/-- The SQL statements of main.go, with their arguments. -/
inductive Stmt where
  /-- SELECT url FROM urls WHERE short_code=? LIMIT 1 -/
  | selectUrl (shortcode : String)
  /-- SELECT short_code FROM urls WHERE url=? LIMIT 1 -/
  | selectShortCode (url : String)
  /-- INSERT INTO urls (url) VALUES (?) -/
  | insertUrl (url : String)
  /-- UPDATE urls SET short_code = ? WHERE id = ? LIMIT 1 -/
  | updateShortCode (shortcode : String) (id : Int)
deriving DecidableEq, Repr

/-- The error value `row.Scan` returns. -/
inductive ScanErr where
  | nil
  | ErrNoRows
  | other (msg : String)
deriving DecidableEq, Repr

/-- The storage errors injected into one request: for each storage step, the message
of the error it fails with, or `none` when it succeeds. -/
structure Faults where
  query : Option String := none
  insert : Option String := none
  lastInsertId : Option String := none
  update : Option String := none
deriving DecidableEq, Repr

/-- No storage error. -/
def Faults.free : Faults := {}

/-- The query of `getUrlFromShortcode` followed by `row.Scan(&url)`: the value of
`url` after the scan (it starts empty) and the error of the scan. -/
def scanUrl (fault : Option String) (db : DB) (shortcode : String) : String × ScanErr :=
  match fault with
  | some msg => ("", .other msg)
  | none =>
    match db.rows.find? (fun r => r.short_code == some shortcode) with
    | none => ("", .ErrNoRows)
    | some r => (r.url, .nil)

/-- The query of `addUrlHandler` followed by `row.Scan(&shortcode)`.  Scanning a NULL
column into a Go string is an error of `database/sql` that leaves the destination
untouched (the text of the message depends on the library version). -/
def scanShortCode (fault : Option String) (db : DB) (url : String) : String × ScanErr :=
  match fault with
  | some msg => ("", .other msg)
  | none =>
    match db.rows.find? (fun r => r.url == url) with
    | none => ("", .ErrNoRows)
    | some r =>
      match r.short_code with
      | some s => (s, .nil)
      | none => ("", .other "sql: Scan error on column index 0: converting NULL to string is unsupported")

/-- The INSERT of `addUrlHandler`: a new row with the next id and a NULL short code.
Returns the table and the insert id of the result. -/
def execInsert (fault : Option String) (db : DB) (url : String) : Except String (DB × Int) :=
  match fault with
  | some msg => .error msg
  | none =>
    .ok ({ rows := db.rows ++ [{ id := db.autoIncrement, url := url, short_code := none }],
           autoIncrement := db.autoIncrement + 1 }, db.autoIncrement)

/-- Go `result.LastInsertId()`. -/
def LastInsertId (fault : Option String) (insertId : Int) : Except String Int :=
  match fault with
  | some msg => .error msg
  | none => .ok insertId

/-- Set the short code of the first row whose id is `id` (WHERE id = ? LIMIT 1). -/
def updateRows (shortcode : String) (id : Int) : List UrlRecord → List UrlRecord
  | [] => []
  | r :: rs =>
    if r.id = id then { r with short_code := some shortcode } :: rs
    else r :: updateRows shortcode id rs

/-- The UPDATE of `addUrlHandler`. -/
def execUpdate (fault : Option String) (db : DB) (shortcode : String) (id : Int) :
    Except String DB :=
  match fault with
  | some msg => .error msg
  | none => .ok { db with rows := updateRows shortcode id db.rows }

/-! ## main.go -/

/-- The text of `ErrSpecifyUrl` (main.go 24). -/
def ErrSpecifyUrl : String := "Please specify a url parameter"

/-- The body `urlHandler` prints for an unknown short code (main.go 113). -/
def notFoundMessage : String :=
  "That url doesn\x27t seem to exist.  Maybe try checking out my blog instead? <a href=\x27http://jonefox.com/blog/\x27>http://jonefox.com/blog/</a>"

/-- The value `main` leaves in the variable `baseUrl` for the configured `base-url`
(main.go 63-66): `strings.TrimRight(baseUrl, "/")`. -/
def mainBaseUrl (configured : String) : String :=
  TrimRight configured "/"

/-- What a handler did: the response, the table afterwards, the statements issued. -/
structure Outcome where
  w : ResponseWriter
  db : DB
  stmts : List Stmt
deriving DecidableEq, Repr

/-- Translation of `outputWebErr` (main.go 179-182). -/
def outputWebErr (w : ResponseWriter) (err : String) : ResponseWriter :=
  (w.WriteHeader 500).Fprintln err

/-- Translation of `getUrlFromShortcode` (main.go 122-133). -/
def getUrlFromShortcode (fault : Option String) (db : DB) (shortcode : String) : String :=
  let (url, rowErr) := scanUrl fault db shortcode
  if rowErr = ScanErr.ErrNoRows then "" else url

/-- Translation of `urlHandler` (main.go 98-119). -/
def urlHandler (fault : Option String) (db : DB) (w : ResponseWriter) (r : Request) : Outcome :=
  let lookupUrl := Trim r.Path "/ \n"
  let expandedUrl := getUrlFromShortcode fault db lookupUrl
  let stmts := [Stmt.selectUrl lookupUrl]
  if expandedUrl = "" then
    let w1 := w.HeaderAdd "Content-Type" "text/html"
    let w2 := w1.WriteHeader 404
    let w3 := w2.Fprintln notFoundMessage
    { w := w3, db := db, stmts := stmts }
  else
    let w1 := w.HeaderAdd "Location" expandedUrl
    let w2 := w1.WriteHeader 301
    { w := w2, db := db, stmts := stmts }

/-- Translation of `addUrlHandler` (main.go 136-176). -/
def addUrlHandler (baseUrl : String) (f : Faults) (db : DB) (w : ResponseWriter)
    (r : Request) : Outcome :=
  let urlToAdd := r.QueryGet "url"
  if urlToAdd = "" then
    { w := outputWebErr w ErrSpecifyUrl, db := db, stmts := [] }
  else
    let (shortcode, rowErr) := scanShortCode f.query db urlToAdd
    let s0 := [Stmt.selectShortCode urlToAdd]
    if rowErr = ScanErr.ErrNoRows then
      let s1 := s0 ++ [Stmt.insertUrl urlToAdd]
      match execInsert f.insert db urlToAdd with
      | .error err => { w := outputWebErr w err, db := db, stmts := s1 }
      | .ok (db1, result) =>
        match LastInsertId f.lastInsertId result with
        | .error idErr => { w := outputWebErr w idErr, db := db1, stmts := s1 }
        | .ok id =>
          let shortcode := FormatInt id 36
          let s2 := s1 ++ [Stmt.updateShortCode shortcode id]
          match execUpdate f.update db1 shortcode id with
          | .error updateErr => { w := outputWebErr w updateErr, db := db1, stmts := s2 }
          | .ok db2 =>
            { w := (w.WriteHeader 200).Fprintln (baseUrl ++ "/" ++ shortcode),
              db := db2, stmts := s2 }
    else
      { w := (w.WriteHeader 200).Fprintln (baseUrl ++ "/" ++ shortcode),
        db := db, stmts := s0 }

/-! ## Sequences of fault-free requests -/

/-- A request served by one of the two handlers. -/
inductive Call where
  | lookup (r : Request)
  | add (r : Request)
deriving DecidableEq, Repr

/-- The table after a request served without storage errors. -/
def step (baseUrl : String) (db : DB) : Call → DB
  | .lookup r => (urlHandler none db {} r).db
  | .add r => (addUrlHandler baseUrl Faults.free db {} r).db

/-- The table after a sequence of requests served without storage errors. -/
def run (baseUrl : String) (db : DB) (calls : List Call) : DB :=
  calls.foldl (step baseUrl) db

/-- A GET of `/add-url/?url=u`. -/
def addRequest (u : String) : Request :=
  { Path := "/add-url/", Query := [("url", u)] }

/-! ## Specification-level definitions -/

/-- The characters of the cutset `urlHandler` trims: slash, space and newline. -/
def cutChar (x : Char) : Prop := x = '/' ∨ x = ' ' ∨ x = '\n'

instance (x : Char) : Decidable (cutChar x) := by
  unfold cutChar; exact inferInstance

/-- The value of a digit character: its index in the digit table. -/
def digitVal (c : Char) : Nat :=
  digits.data.indexOf c

/-- The digits of `u`, most significant first; zero has the single digit 0. -/
def digitsOf (b u : Nat) : List Nat :=
  if u = 0 then [0] else (Nat.digits b u).reverse

/-- The character of a base-36 digit as the specification words it: the digits
0-9, then the lowercase letters a-z. -/
def base36Digit (d : Nat) : Char :=
  if d < 10 then Char.ofNat ('0'.toNat + d) else Char.ofNat ('a'.toNat + (d - 10))

/-- The base-36 numeral of a natural number, most significant digit first, from the
positional digits of Mathlib. -/
def base36Encode (n : Nat) : String :=
  if n = 0 then "0" else ⟨(Nat.digits 36 n).reverse.map base36Digit⟩

/-- A character of the base-36 alphabet: a decimal digit or a lowercase letter. -/
def isBase36Char (c : Char) : Prop :=
  ('0' ≤ c ∧ c ≤ '9') ∨ ('a' ≤ c ∧ c ≤ 'z')

instance (c : Char) : Decidable (isBase36Char c) := by
  unfold isBase36Char; exact inferInstance

/-- The invariant of the tables the handlers build: every row has a positive id below
the counter, a non-empty url and the short code of its id; ids and urls are pairwise
distinct. -/
def Inv (db : DB) : Prop :=
  (∀ r ∈ db.rows, 0 < r.id ∧ r.id < db.autoIncrement ∧ r.url ≠ "" ∧
      r.short_code = some (FormatInt r.id 36)) ∧
  (db.rows.map UrlRecord.id).Nodup ∧ (db.rows.map UrlRecord.url).Nodup ∧
  0 < db.autoIncrement

/-! ## Lemmas: trimming -/

theorem inCutset_path (x : Char) : inCutset "/ \n" x = true ↔ cutChar x := by
  simp [inCutset, cutChar]

theorem inCutset_slash (x : Char) : inCutset "/" x = true ↔ x = '/' := by
  simp [inCutset]

theorem dropWhile_append_all (p : Char → Bool) (pre l : List Char)
    (h : ∀ x ∈ pre, p x = true) : (pre ++ l).dropWhile p = l.dropWhile p := by
  induction pre with
  | nil => rfl
  | cons a t ih =>
    have ha : p a = true := h a (List.mem_cons_self _ _)
    have ht : ∀ x ∈ t, p x = true := fun x hx => h x (List.mem_cons_of_mem _ hx)
    simp [List.dropWhile_cons, ha, ih ht]

theorem dropWhile_all (p : Char → Bool) (l : List Char) (h : ∀ x ∈ l, p x = true) :
    l.dropWhile p = [] := by
  have := dropWhile_append_all p l [] h
  simpa using this

theorem dropWhile_head (p : Char → Bool) (l : List Char)
    (h : ∀ x, l.head? = some x → p x = false) : l.dropWhile p = l := by
  cases l with
  | nil => rfl
  | cons a t =>
    have ha : p a = false := h a rfl
    simp [List.dropWhile_cons, ha]

/-- Trimming a core that neither starts nor ends with a trimmed character, wrapped in
trimmed characters, gives the core back. -/
theorem trim_wrapped (p : Char → Bool) (pre c post : List Char)
    (hpre : ∀ x ∈ pre, p x = true) (hpost : ∀ x ∈ post, p x = true)
    (hhead : ∀ x, c.head? = some x → p x = false)
    (hlast : ∀ x, c.getLast? = some x → p x = false) :
    ((pre ++ c ++ post).rdropWhile p).dropWhile p = c := by
  have hr : (pre ++ c ++ post).rdropWhile p = (pre ++ c).rdropWhile p := by
    unfold List.rdropWhile
    rw [List.reverse_append, dropWhile_append_all p _ _ (by simpa using hpost)]
  rw [hr]
  cases hc : c with
  | nil =>
    unfold List.rdropWhile
    simp only [List.append_nil]
    rw [dropWhile_all p pre.reverse (by simpa using hpre)]
    rfl
  | cons a t =>
    have hne : c ≠ [] := by simp [hc]
    have h2 : (pre ++ c).rdropWhile p = pre ++ c := by
      unfold List.rdropWhile
      rw [List.reverse_append, dropWhile_head p (c.reverse ++ pre.reverse), ← List.reverse_append,
        List.reverse_reverse]
      intro x hx
      apply hlast x
      cases hrc : c.reverse with
      | nil => simp at hrc; exact absurd hrc hne
      | cons b s =>
        rw [hrc] at hx
        simp at hx
        have : c = (b :: s).reverse := by rw [← hrc, List.reverse_reverse]
        rw [this, ← hx]
        simp
    rw [← hc, h2, dropWhile_append_all p pre c hpre, dropWhile_head p c hhead]

/-! ## Lemmas: base-36 encoding -/

theorem digitVal_digitAt : ∀ d < 36, digitVal (digitAt d) = d := by decide

theorem digitAt_alnum : ∀ d < 36, isBase36Char (digitAt d) := by decide

theorem digitAt_eq_base36Digit : ∀ d < 36, digitAt d = base36Digit d := by decide

theorem digitAt_not_cut : ∀ d < 36, ¬ cutChar (digitAt d) := by decide

theorem digitAt_ne_minus : ∀ d < 36, digitAt d ≠ '-' := by decide

theorem formatBitsLoop_pos (b : Nat) (hb : 2 ≤ b) :
    ∀ (fuel u : Nat) (a : List Char), u ≤ fuel → 0 < u →
      formatBitsLoop b fuel u a = (Nat.digits b u).reverse.map digitAt ++ a := by
  intro fuel
  induction fuel with
  | zero => intro u a h1 h2; omega
  | succ n ih =>
    intro u a h1 h2
    unfold formatBitsLoop
    have hd : Nat.digits b u = (u % b) :: Nat.digits b (u / b) :=
      Nat.digits_def' (by omega) h2
    by_cases hub : u ≥ b
    · have hq : 0 < u / b := Nat.div_pos hub (by omega)
      have hq2 : u / b ≤ n := by
        have : u / b < u := Nat.div_lt_self h2 (by omega)
        omega
      have hm : u - u / b * b = u % b := by
        have := Nat.div_add_mod u b
        have h3 : u / b * b = b * (u / b) := Nat.mul_comm _ _
        omega
      simp only [hub, if_true]
      rw [ih (u / b) _ hq2 hq, hd, hm]
      simp
    · have hlt : u < b := by omega
      simp only [hub, if_false]
      rw [hd, Nat.div_eq_of_lt hlt, Nat.mod_eq_of_lt hlt]
      simp

theorem formatBitsLoop_digitsOf (b : Nat) (hb : 2 ≤ b) (u : Nat) :
    formatBitsLoop b u u [] = (digitsOf b u).map digitAt := by
  unfold digitsOf
  by_cases h : u = 0
  · subst h; simp [formatBitsLoop]
  · simp only [h, if_false]
    have := formatBitsLoop_pos b hb u u [] (le_refl _) (by omega)
    simpa using this

theorem digitsOf_lt (b : Nat) (hb : 2 ≤ b) (u : Nat) : ∀ d ∈ digitsOf b u, d < b := by
  intro d hd
  unfold digitsOf at hd
  by_cases h : u = 0
  · simp [h] at hd; omega
  · simp only [h, if_false, List.mem_reverse] at hd
    exact Nat.digits_lt_base (by omega) hd

theorem digitsOf_ne_nil (b u : Nat) : digitsOf b u ≠ [] := by
  unfold digitsOf
  by_cases h : u = 0
  · simp [h]
  · simp only [h, if_false]
    intro hn
    have : Nat.digits b u = [] := by simpa using hn
    exact h (Nat.digits_eq_nil_iff_eq_zero.mp this)

theorem ofDigits_digitsOf (b u : Nat) : Nat.ofDigits b (digitsOf b u).reverse = u := by
  unfold digitsOf
  by_cases h : u = 0
  · simp [h, Nat.ofDigits]
  · simp [h, Nat.ofDigits_digits]

theorem map_digitVal_digitAt (l : List Nat) (h : ∀ d ∈ l, d < 36) :
    (l.map digitAt).map digitVal = l := by
  induction l with
  | nil => rfl
  | cons a t ih =>
    have ha := digitVal_digitAt a (h a (List.mem_cons_self _ _))
    have ht := ih (fun d hd => h d (List.mem_cons_of_mem _ hd))
    simp only [List.map_cons, ha, ht]

/-- The characters of `FormatInt i 36`: an optional minus sign, then the digits. -/
theorem FormatInt_data (i : Int) :
    (FormatInt i 36).data =
      (if i < 0 then ['-'] else []) ++ (digitsOf 36 i.natAbs).map digitAt := by
  unfold FormatInt formatBits
  simp only [formatBitsLoop_digitsOf 36 (by omega)]
  by_cases h : i < 0 <;> simp [h]

theorem FormatInt_inj (a b : Int) (h : FormatInt a 36 = FormatInt b 36) : a = b := by
  have hd : (FormatInt a 36).data = (FormatInt b 36).data := by rw [h]
  rw [FormatInt_data, FormatInt_data] at hd
  have key : ∀ u : Nat, ∃ c t, (digitsOf 36 u).map digitAt = c :: t ∧ c ≠ '-' := by
    intro u
    cases hu : digitsOf 36 u with
    | nil => exact absurd hu (digitsOf_ne_nil 36 u)
    | cons x t =>
      refine ⟨digitAt x, t.map digitAt, by simp, ?_⟩
      exact digitAt_ne_minus x (digitsOf_lt 36 (by omega) u x (by simp [hu]))
  have body : ∀ u v : Nat, (digitsOf 36 u).map digitAt = (digitsOf 36 v).map digitAt → u = v := by
    intro u v huv
    have h1 := congrArg (List.map digitVal) huv
    rw [map_digitVal_digitAt _ (digitsOf_lt 36 (by omega) u),
      map_digitVal_digitAt _ (digitsOf_lt 36 (by omega) v)] at h1
    have h2 := ofDigits_digitsOf 36 u
    rw [h1, ofDigits_digitsOf] at h2
    exact h2.symm
  obtain ⟨ca, ta, hca, hna⟩ := key a.natAbs
  obtain ⟨cb, tb, hcb, hnb⟩ := key b.natAbs
  by_cases ha : a < 0 <;> by_cases hb : b < 0
  · simp only [ha, hb, if_true, List.cons_append, List.nil_append, List.cons.injEq, true_and] at hd
    have := body _ _ hd
    omega
  · simp only [ha, hb, if_true, if_false, List.cons_append, List.nil_append] at hd
    rw [hcb] at hd
    simp only [List.cons.injEq] at hd
    exact absurd hd.1.symm hnb
  · simp only [ha, hb, if_true, if_false, List.cons_append, List.nil_append] at hd
    rw [hca] at hd
    simp only [List.cons.injEq] at hd
    exact absurd hd.1 hna
  · simp only [ha, hb, if_false, List.nil_append] at hd
    have := body _ _ hd
    omega

/-- Every character of the base-36 text of a positive identifier is a digit or a
lowercase letter, and the text is not empty. -/
theorem FormatInt_pos_chars (n : Int) (hn : 0 < n) :
    (FormatInt n 36).data ≠ [] ∧ ∀ c ∈ (FormatInt n 36).data, isBase36Char c := by
  rw [FormatInt_data]
  have h0 : ¬ n < 0 := by omega
  simp only [h0, if_false, List.nil_append]
  constructor
  · simpa using digitsOf_ne_nil 36 n.natAbs
  · intro c hc
    obtain ⟨d, hd, rfl⟩ := List.mem_map.mp hc
    exact digitAt_alnum d (digitsOf_lt 36 (by omega) _ d hd)

theorem FormatInt_eq_base36Encode (n : Int) (hn : 0 < n) :
    FormatInt n 36 = base36Encode n.toNat := by
  apply String.ext
  rw [FormatInt_data]
  have h0 : ¬ n < 0 := by omega
  have h1 : n.toNat ≠ 0 := by omega
  have h2 : n.natAbs = n.toNat := by omega
  simp only [h0, if_false, List.nil_append, base36Encode, h1, digitsOf, h2]
  apply List.map_congr_left
  intro d hd
  exact digitAt_eq_base36Digit d (Nat.digits_lt_base (by omega) (List.mem_reverse.mp hd))

theorem isBase36Char_not_cut (c : Char) (h : isBase36Char c) : ¬ cutChar c := by
  unfold isBase36Char at h
  unfold cutChar
  rintro (rfl | rfl | rfl) <;> revert h <;> decide

/-- Trimming the path made of a slash and the short code of a positive id gives the
short code. -/
theorem Trim_path_of_code (n : Int) (hn : 0 < n) (pre post : String)
    (hpre : ∀ x ∈ pre.data, cutChar x) (hpost : ∀ x ∈ post.data, cutChar x) :
    Trim (pre ++ FormatInt n 36 ++ post) "/ \n" = FormatInt n 36 := by
  obtain ⟨_, hall⟩ := FormatInt_pos_chars n hn
  apply String.ext
  unfold Trim TrimLeft TrimRight
  simp only [String.data_append]
  apply trim_wrapped
  · intro x hx; exact (inCutset_path x).mpr (hpre x hx)
  · intro x hx; exact (inCutset_path x).mpr (hpost x hx)
  · intro x hx
    have hm : x ∈ (FormatInt n 36).data := List.mem_of_mem_head? hx
    have := isBase36Char_not_cut x (hall x hm)
    rw [← inCutset_path] at this
    simpa using this
  · intro x hx
    have hm : x ∈ (FormatInt n 36).data := List.mem_of_mem_getLast? hx
    have := isBase36Char_not_cut x (hall x hm)
    rw [← inCutset_path] at this
    simpa using this

/-! ## Lemmas: the table -/

theorem updateRows_append_new (code : String) (id : Int) (rows : List UrlRecord)
    (u : String) (h : ∀ r ∈ rows, r.id ≠ id) :
    updateRows code id (rows ++ [{ id := id, url := u, short_code := none }]) =
      rows ++ [{ id := id, url := u, short_code := some code }] := by
  induction rows with
  | nil => simp [updateRows]
  | cons a t ih =>
    have ha : a.id ≠ id := h a (List.mem_cons_self _ _)
    have ht := ih (fun r hr => h r (List.mem_cons_of_mem _ hr))
    simp [updateRows, ha, ht]

/-- In a list whose images under `f` are pairwise distinct, the elements with the
image of a member `x` are `x` alone. -/
theorem filter_eq_singleton {α β : Type} [BEq β] [LawfulBEq β] (f : α → β) :
    ∀ (l : List α) (x : α), (l.map f).Nodup → x ∈ l →
      l.filter (fun y => f y == f x) = [x] := by
  intro l
  induction l with
  | nil => intro x _ hx; simp at hx
  | cons a t ih =>
    intro x hnd hx
    rw [List.map_cons, List.nodup_cons] at hnd
    obtain ⟨hnot, hnd2⟩ := hnd
    rcases List.mem_cons.mp hx with rfl | hxt
    · have : t.filter (fun y => f y == f x) = [] := by
        rw [List.filter_eq_nil_iff]
        intro y hy hyx
        apply hnot
        rw [← eq_of_beq hyx]
        exact List.mem_map_of_mem f hy
      simp [List.filter_cons, this]
    · have hne : f a ≠ f x := by
        intro h
        apply hnot
        rw [h]
        exact List.mem_map_of_mem f hxt
      simp [List.filter_cons, hne, ih x hnd2 hxt]

theorem filter_length_le_one {α β : Type} [BEq β] [LawfulBEq β] (f : α → β) (l : List α)
    (b : β) (hnd : (l.map f).Nodup) : (l.filter (fun y => f y == b)).length ≤ 1 := by
  by_cases h : ∃ x ∈ l, f x = b
  · obtain ⟨x, hx, rfl⟩ := h
    rw [filter_eq_singleton f l x hnd hx]
    simp
  · have : l.filter (fun y => f y == b) = [] := by
      rw [List.filter_eq_nil_iff]
      intro y hy hyb
      exact h ⟨y, hy, eq_of_beq hyb⟩
    simp [this]

theorem find_eq_of_filter_singleton {α : Type} (p : α → Bool) :
    ∀ (l : List α) (x : α), l.filter p = [x] → l.find? p = some x := by
  intro l
  induction l with
  | nil => intro x h; simp at h
  | cons a t ih =>
    intro x h
    by_cases hp : p a = true
    · simp [List.filter_cons, hp] at h
      rw [List.find?_cons, hp, h.1]
    · simp [List.filter_cons, hp] at h
      simp [List.find?_cons, hp, ih x h]

/-! ## Lemmas: the handlers -/

theorem urlHandler_db (fault : Option String) (db : DB) (w : ResponseWriter) (r : Request) :
    (urlHandler fault db w r).db = db ∧
      (urlHandler fault db w r).stmts = [Stmt.selectUrl (Trim r.Path "/ \n")] := by
  unfold urlHandler
  by_cases h : getUrlFromShortcode fault db (Trim r.Path "/ \n") = "" <;> simp [h]

/-- The redirect answer of `urlHandler`, when the lookup finds a row with a non-empty
url. -/
theorem urlHandler_found (db : DB) (r : Request) (row : UrlRecord)
    (hf : db.rows.find? (fun x => x.short_code == some (Trim r.Path "/ \n")) = some row)
    (hu : row.url ≠ "") :
    (urlHandler none db {} r).w =
      { header := [("Location", row.url)], status := some 301, body := "" } := by
  unfold urlHandler getUrlFromShortcode scanUrl
  simp [hf, hu, ResponseWriter.HeaderAdd, ResponseWriter.WriteHeader]

/-- The not-found answer of `urlHandler`, whenever the looked-up url is empty. -/
theorem urlHandler_missing (fault : Option String) (db : DB) (r : Request)
    (hf : getUrlFromShortcode fault db (Trim r.Path "/ \n") = "") :
    (urlHandler fault db {} r).w =
      { header := [("Content-Type", "text/html")], status := some 404,
        body := notFoundMessage ++ "\n" } := by
  unfold urlHandler
  simp [hf, ResponseWriter.HeaderAdd, ResponseWriter.WriteHeader, ResponseWriter.Fprintln]

/-- The answer of `addUrlHandler` for a url no row holds: a row is created. -/
theorem addUrlHandler_new (baseUrl : String) (db : DB) (w : ResponseWriter) (r : Request)
    (hurl : r.QueryGet "url" ≠ "")
    (hnew : ∀ row ∈ db.rows, row.url ≠ r.QueryGet "url")
    (hid : ∀ row ∈ db.rows, row.id ≠ db.autoIncrement) :
    addUrlHandler baseUrl Faults.free db w r =
      { w := (w.WriteHeader 200).Fprintln (baseUrl ++ "/" ++ FormatInt db.autoIncrement 36),
        db := { rows := db.rows ++ [{ id := db.autoIncrement, url := r.QueryGet "url",
                                      short_code := some (FormatInt db.autoIncrement 36) }],
                autoIncrement := db.autoIncrement + 1 },
        stmts := [Stmt.selectShortCode (r.QueryGet "url"), Stmt.insertUrl (r.QueryGet "url"),
                  Stmt.updateShortCode (FormatInt db.autoIncrement 36) db.autoIncrement] } := by
  have hfind : db.rows.find? (fun x => x.url == r.QueryGet "url") = none := by
    rw [List.find?_eq_none]
    intro x hx
    simpa using hnew x hx
  unfold addUrlHandler
  simp [hurl, scanShortCode, Faults.free, hfind, execInsert, LastInsertId, execUpdate,
    updateRows_append_new _ _ _ _ hid]

/-- The answer of `addUrlHandler` for a url a row with a short code holds. -/
theorem addUrlHandler_found (baseUrl : String) (db : DB) (w : ResponseWriter) (r : Request)
    (row : UrlRecord) (code : String) (hurl : r.QueryGet "url" ≠ "")
    (hf : db.rows.find? (fun x => x.url == r.QueryGet "url") = some row)
    (hc : row.short_code = some code) :
    addUrlHandler baseUrl Faults.free db w r =
      { w := (w.WriteHeader 200).Fprintln (baseUrl ++ "/" ++ code), db := db,
        stmts := [Stmt.selectShortCode (r.QueryGet "url")] } := by
  unfold addUrlHandler
  simp [hurl, scanShortCode, Faults.free, hf, hc]

theorem fresh_200 (s : String) :
    (({} : ResponseWriter).WriteHeader 200).Fprintln s =
      { header := [], status := some 200, body := s ++ "\n" } := by
  simp [ResponseWriter.WriteHeader, ResponseWriter.Fprintln]

theorem fresh_500 (s : String) :
    outputWebErr {} s = { header := [], status := some 500, body := s ++ "\n" } := by
  simp [outputWebErr, ResponseWriter.WriteHeader, ResponseWriter.Fprintln]

/-! ## Lemmas: the invariant -/

theorem Inv_empty : Inv DB.empty := by
  simp [Inv, DB.empty]

theorem Inv_fresh (db : DB) (h : Inv db) : ∀ row ∈ db.rows, row.id ≠ db.autoIncrement := by
  intro row hrow
  have := (h.1 row hrow).2.1
  omega

/-- What a fault-free `addUrlHandler` does on a table satisfying the invariant: the
row of the url (kept, or appended when the url is new) carries the returned code. -/
theorem addUrlHandler_Inv (baseUrl : String) (db : DB) (r : Request) (h : Inv db)
    (hurl : r.QueryGet "url" ≠ "") :
    ∃ (row : UrlRecord) (tail : List UrlRecord),
      let out := addUrlHandler baseUrl Faults.free db {} r
      Inv out.db ∧ out.db.rows = db.rows ++ tail ∧ row ∈ out.db.rows ∧
      row.url = r.QueryGet "url" ∧
      out.w = { header := [], status := some 200,
                body := baseUrl ++ "/" ++ FormatInt row.id 36 ++ "\n" } := by
  obtain ⟨hrows, hids, hurls, hpos⟩ := h
  cases hf : db.rows.find? (fun x => x.url == r.QueryGet "url") with
  | some row =>
    have hmem : row ∈ db.rows := List.mem_of_find?_eq_some hf
    have hp : row.url = r.QueryGet "url" := by
      have := List.find?_some hf
      simpa using this
    refine ⟨row, [], ?_⟩
    simp only
    rw [addUrlHandler_found baseUrl db {} r row _ hurl hf (hrows row hmem).2.2.2, fresh_200]
    exact ⟨⟨hrows, hids, hurls, hpos⟩, by simp, hmem, hp, rfl⟩
  | none =>
    have hnew : ∀ row ∈ db.rows, row.url ≠ r.QueryGet "url" := by
      intro x hx
      have := List.find?_eq_none.mp hf x hx
      simpa using this
    have hid := Inv_fresh db ⟨hrows, hids, hurls, hpos⟩
    refine ⟨{ id := db.autoIncrement, url := r.QueryGet "url",
              short_code := some (FormatInt db.autoIncrement 36) },
            [{ id := db.autoIncrement, url := r.QueryGet "url",
               short_code := some (FormatInt db.autoIncrement 36) }], ?_⟩
    simp only
    rw [addUrlHandler_new baseUrl db {} r hurl hnew hid, fresh_200]
    refine ⟨⟨?_, ?_, ?_, ?_⟩, rfl, by simp, trivial, rfl⟩
    · intro x hx
      rcases List.mem_append.mp hx with hx | hx
      · obtain ⟨a, b, c, d⟩ := hrows x hx
        exact ⟨a, by simp only; omega, c, d⟩
      · simp only [List.mem_singleton] at hx
        subst hx
        exact ⟨hpos, by simp only; omega, hurl, rfl⟩
    · simp only [List.map_append, List.map_cons, List.map_nil]
      rw [List.nodup_append]
      refine ⟨hids, by simp, ?_⟩
      intro a ha hb
      simp only [List.mem_singleton] at hb
      subst hb
      obtain ⟨x, hx, hxa⟩ := List.mem_map.mp ha
      exact hid x hx hxa
    · simp only [List.map_append, List.map_cons, List.map_nil]
      rw [List.nodup_append]
      refine ⟨hurls, by simp, ?_⟩
      intro a ha hb
      simp only [List.mem_singleton] at hb
      subst hb
      obtain ⟨x, hx, hxa⟩ := List.mem_map.mp ha
      exact hnew x hx hxa
    · simp only; omega

theorem addUrlHandler_empty_url (baseUrl : String) (f : Faults) (db : DB)
    (r : Request) (h : r.QueryGet "url" = "") :
    addUrlHandler baseUrl f db {} r =
      { w := { header := [], status := some 500, body := ErrSpecifyUrl ++ "\n" },
        db := db, stmts := [] } := by
  unfold addUrlHandler
  simp [h, fresh_500]

/-- One fault-free request keeps the invariant and only appends rows. -/
theorem step_Inv (baseUrl : String) (db : DB) (c : Call) (h : Inv db) :
    Inv (step baseUrl db c) ∧ ∃ tail, (step baseUrl db c).rows = db.rows ++ tail := by
  cases c with
  | lookup r =>
    simp only [step, (urlHandler_db none db {} r).1]
    exact ⟨h, [], by simp⟩
  | add r =>
    simp only [step]
    by_cases hurl : r.QueryGet "url" = ""
    · rw [addUrlHandler_empty_url baseUrl _ db r hurl]
      exact ⟨h, [], by simp⟩
    · obtain ⟨row, tail, h1, h2, _⟩ := addUrlHandler_Inv baseUrl db r h hurl
      exact ⟨h1, tail, h2⟩

theorem run_Inv (baseUrl : String) (calls : List Call) :
    ∀ db, Inv db → Inv (run baseUrl db calls) ∧
      ∃ tail, (run baseUrl db calls).rows = db.rows ++ tail := by
  induction calls with
  | nil => intro db h; exact ⟨h, [], by simp [run]⟩
  | cons c t ih =>
    intro db h
    obtain ⟨h1, t1, e1⟩ := step_Inv baseUrl db c h
    obtain ⟨h2, t2, e2⟩ := ih _ h1
    refine ⟨by simpa [run] using h2, t1 ++ t2, ?_⟩
    have : run baseUrl db (c :: t) = run baseUrl (step baseUrl db c) t := by simp [run]
    rw [this, e2, e1, List.append_assoc]

theorem Inv_codes_nodup (db : DB) (h : Inv db) :
    (db.rows.map UrlRecord.short_code).Nodup := by
  have e : db.rows.map UrlRecord.short_code =
      (db.rows.map UrlRecord.id).map (fun i => some (FormatInt i 36)) := by
    rw [List.map_map]
    apply List.map_congr_left
    intro x hx
    simpa using (h.1 x hx).2.2.2
  rw [e]
  apply List.Nodup.map _ h.2.1
  intro a b hab
  exact FormatInt_inj a b (Option.some.inj hab)

theorem getUrlFromShortcode_missing (fault : Option String) (db : DB) (code : String)
    (hmiss : ∀ row ∈ db.rows, row.short_code ≠ some code) :
    getUrlFromShortcode fault db code = "" := by
  unfold getUrlFromShortcode scanUrl
  cases fault with
  | some msg => simp
  | none =>
    have : db.rows.find? (fun x => x.short_code == some code) = none := by
      rw [List.find?_eq_none]
      intro x hx
      simpa using hmiss x hx
    simp [this]

theorem QueryGet_eq_lookup (r : Request) (key : String) :
    r.QueryGet key = (r.Query.lookup key).getD "" := by
  unfold Request.QueryGet
  induction r.Query with
  | nil => rfl
  | cons kv t ih =>
    obtain ⟨k, v⟩ := kv
    by_cases h : k = key
    · subst h; simp [List.find?_cons, List.lookup]
    · have h2 : ¬ key = k := fun e => h e.symm
      have h3 : (key == k) = false := by simpa using h2
      have h4 : (k == key) = false := by simpa using h
      simp only [List.find?_cons, List.lookup, h3, h4]
      exact ih

theorem dropWhile_head_not (p : Char → Bool) (l : List Char) (x : Char)
    (h : (l.dropWhile p).head? = some x) : p x = false := by
  induction l with
  | nil => simp at h
  | cons a t ih =>
    by_cases ha : p a = true
    · simp only [List.dropWhile_cons, ha, if_true] at h
      exact ih h
    · simp only [List.dropWhile_cons, ha] at h
      simp at h
      subst h
      simpa using ha

/-- `TrimRight s "/"` is `s` without its trailing slashes. -/
theorem TrimRight_slash (s : String) :
    (∃ k : Nat, s = TrimRight s "/" ++ ⟨List.replicate k '/'⟩) ∧
      (TrimRight s "/").data.getLast? ≠ some '/' := by
  constructor
  · refine ⟨((s.data.reverse).takeWhile (inCutset "/")).length, ?_⟩
    apply String.ext
    simp only [TrimRight, String.data_append, List.rdropWhile]
    have h1 : ((s.data.reverse).takeWhile (inCutset "/")).reverse =
        List.replicate ((s.data.reverse).takeWhile (inCutset "/")).length '/' := by
      rw [List.eq_replicate_iff]
      refine ⟨by simp, ?_⟩
      intro b hb
      have hb2 : b ∈ (s.data.reverse).takeWhile (inCutset "/") := List.mem_reverse.mp hb
      exact (inCutset_slash b).mp (List.mem_takeWhile_imp hb2)
    rw [← h1, ← List.reverse_append, List.takeWhile_append_dropWhile, List.reverse_reverse]
  · intro h
    simp only [TrimRight, List.rdropWhile, List.getLast?_reverse] at h
    have := dropWhile_head_not _ _ _ h
    rw [(inCutset_slash '/').mpr rfl] at this
    exact Bool.noConfusion this

/-! ## The claims -/

/-- C1: for every table state satisfying the schema constraints and every non-empty url
that no row holds, two fault-free `addUrlHandler` requests in sequence for that url
both answer 200 with the same body `baseUrl/<code>` (the code of the id assigned by
the first request), and afterwards exactly one row has that url. -/
theorem addUrlHandler_twice_same_code (baseUrl : String) (db : DB) (r1 r2 : Request)
    (hvalid : db.Valid) (hurl : r1.QueryGet "url" ≠ "")
    (hsame : r2.QueryGet "url" = r1.QueryGet "url")
    (hnew : ∀ row ∈ db.rows, row.url ≠ r1.QueryGet "url") :
    let out1 := addUrlHandler baseUrl Faults.free db {} r1
    let out2 := addUrlHandler baseUrl Faults.free out1.db {} r2
    out1.w.status = some 200 ∧ out2.w.status = some 200 ∧
    out1.w.body = baseUrl ++ "/" ++ FormatInt db.autoIncrement 36 ++ "\n" ∧
    out2.w.body = out1.w.body ∧
    (out2.db.rows.filter (fun row => row.url == r1.QueryGet "url")).length = 1 := by
  have hid : ∀ row ∈ db.rows, row.id ≠ db.autoIncrement := by
    intro row hrow
    have := hvalid.1 row hrow
    omega
  have hnone : db.rows.filter (fun row => row.url == r1.QueryGet "url") = [] := by
    rw [List.filter_eq_nil_iff]
    intro x hx
    simpa using hnew x hx
  have hfind : db.rows.find? (fun x => x.url == r1.QueryGet "url") = none := by
    rw [List.find?_eq_none]
    intro x hx
    simpa using hnew x hx
  intro out1 out2
  have e1 := addUrlHandler_new baseUrl db {} r1 hurl hnew hid
  have hurl2 : r2.QueryGet "url" ≠ "" := by rw [hsame]; exact hurl
  have hfind2 : out1.db.rows.find? (fun x => x.url == r2.QueryGet "url") =
      some { id := db.autoIncrement, url := r1.QueryGet "url",
             short_code := some (FormatInt db.autoIncrement 36) } := by
    show List.find? _ (addUrlHandler baseUrl Faults.free db {} r1).db.rows = _
    rw [e1, hsame]
    simp [List.find?_append, hfind]
  have e2 : out2 = _ := addUrlHandler_found baseUrl out1.db {} r2 _ _ hurl2 hfind2 rfl
  have e1b : out1 = _ := e1
  rw [e2, e1b, fresh_200]
  refine ⟨rfl, rfl, rfl, rfl, ?_⟩
  simp [List.filter_append, hnone]

/-- Witness for C1 on the empty table. -/
theorem addUrlHandler_twice_same_code_witness :
    DB.empty.Valid ∧
    (let out1 := addUrlHandler "http://x.co" Faults.free DB.empty {}
        (addRequest "http://example.com/page")
     let out2 := addUrlHandler "http://x.co" Faults.free out1.db {}
        (addRequest "http://example.com/page")
     out1.w.status = some 200 ∧ out2.w.status = some 200 ∧
     out1.w.body = "http://x.co" ++ "/" ++ FormatInt DB.empty.autoIncrement 36 ++ "\n" ∧
     out2.w.body = out1.w.body ∧
     (out2.db.rows.filter
        (fun row => row.url == (addRequest "http://example.com/page").QueryGet "url")).length
       = 1) :=
  ⟨by decide,
   addUrlHandler_twice_same_code "http://x.co" DB.empty (addRequest "http://example.com/page")
     (addRequest "http://example.com/page") (by decide) (by decide) rfl (by decide)⟩

/-- C2: in every table state reached from the empty table by fault-free requests, for
every non-empty url `u`, `addUrlHandler` answers 200 with body `baseUrl/<code>` and a
newline; the rows carrying that code are the single row of `u`; and `urlHandler` on
the path `/<code>` of the table left by the submission answers 301 with the single
header `Location: u` and an empty body. -/
theorem add_then_lookup_round_trip (baseUrl : String) (calls : List Call) (r : Request)
    (hurl : r.QueryGet "url" ≠ "") :
    let db := run baseUrl DB.empty calls
    let out := addUrlHandler baseUrl Faults.free db {} r
    ∃ code : String,
      out.w.status = some 200 ∧ out.w.body = baseUrl ++ "/" ++ code ++ "\n" ∧
      (out.db.rows.filter (fun row => row.short_code == some code)).map UrlRecord.url =
        [r.QueryGet "url"] ∧
      ∀ q : Request, q.Path = "/" ++ code →
        (urlHandler none out.db {} q).w =
          { header := [("Location", r.QueryGet "url")], status := some 301, body := "" } := by
  intro db out
  have hinv : Inv db := (run_Inv baseUrl calls DB.empty Inv_empty).1
  obtain ⟨row, tail, h1, _, hmem, hrowurl, hw⟩ := addUrlHandler_Inv baseUrl db r hinv hurl
  have hw2 : out.w = _ := hw
  have h1b : Inv out.db := h1
  have hmem2 : row ∈ out.db.rows := hmem
  have hcode : row.short_code = some (FormatInt row.id 36) := (h1b.1 row hmem2).2.2.2
  have hpos : 0 < row.id := (h1b.1 row hmem2).1
  have hfilter : out.db.rows.filter (fun y => y.short_code == some (FormatInt row.id 36)) =
      [row] := by
    have := filter_eq_singleton UrlRecord.short_code out.db.rows row (Inv_codes_nodup _ h1b) hmem2
    rw [hcode] at this
    exact this
  refine ⟨FormatInt row.id 36, by rw [hw2], by rw [hw2], ?_, ?_⟩
  · rw [hfilter]
    simp [hrowurl]
  · intro q hq
    have htrim : Trim q.Path "/ \n" = FormatInt row.id 36 := by
      have := Trim_path_of_code row.id hpos "/" "" (by decide) (by simp)
      rw [hq]
      simpa using this
    have hfind : out.db.rows.find? (fun x => x.short_code == some (Trim q.Path "/ \n")) =
        some row := by
      rw [htrim]
      exact find_eq_of_filter_singleton _ _ _ hfilter
    have hne : row.url ≠ "" := by rw [hrowurl]; exact hurl
    rw [urlHandler_found out.db q row hfind hne, hrowurl]

/-- Witness for C2: submitting a second url after one earlier submission. -/
theorem add_then_lookup_round_trip_witness :
    (addRequest "http://example.com/page").QueryGet "url" ≠ "" ∧
    (let db := run "http://x.co" DB.empty [Call.add (addRequest "http://example.com/")]
     let out := addUrlHandler "http://x.co" Faults.free db {}
        (addRequest "http://example.com/page")
     ∃ code : String,
       out.w.status = some 200 ∧ out.w.body = "http://x.co" ++ "/" ++ code ++ "\n" ∧
       (out.db.rows.filter (fun row => row.short_code == some code)).map UrlRecord.url =
         [(addRequest "http://example.com/page").QueryGet "url"] ∧
       ∀ q : Request, q.Path = "/" ++ code →
         (urlHandler none out.db {} q).w =
           { header := [("Location", (addRequest "http://example.com/page").QueryGet "url")],
             status := some 301, body := "" }) :=
  ⟨by decide,
   add_then_lookup_round_trip "http://x.co" [Call.add (addRequest "http://example.com/")]
     (addRequest "http://example.com/page") (by decide)⟩

/-- C3, as amended: for every table and every short code `c` that neither begins nor
ends with a slash, a space or a newline and whose lookup finds a row with a non-empty
url `u`, every request path made of `c` between arbitrary runs of slashes, spaces and
newlines makes `urlHandler` answer 301 with the single header `Location: u`. -/
theorem urlHandler_redirects_trimmed (db : DB) (c pre post : String) (row : UrlRecord)
    (r : Request) (hpath : r.Path = pre ++ c ++ post)
    (hpre : ∀ x ∈ pre.data, cutChar x) (hpost : ∀ x ∈ post.data, cutChar x)
    (hhead : ∀ x, c.data.head? = some x → ¬ cutChar x)
    (hlast : ∀ x, c.data.getLast? = some x → ¬ cutChar x)
    (hres : db.rows.find? (fun x => x.short_code == some c) = some row)
    (hu : row.url ≠ "") :
    (urlHandler none db {} r).w =
      { header := [("Location", row.url)], status := some 301, body := "" } ∧
    (urlHandler none db {} r).w.HeaderValues "Location" = [row.url] := by
  have htrim : Trim r.Path "/ \n" = c := by
    apply String.ext
    rw [hpath]
    unfold Trim TrimLeft TrimRight
    simp only [String.data_append]
    apply trim_wrapped
    · intro x hx; exact (inCutset_path x).mpr (hpre x hx)
    · intro x hx; exact (inCutset_path x).mpr (hpost x hx)
    · intro x hx
      have := hhead x hx
      rw [← inCutset_path] at this
      simpa using this
    · intro x hx
      have := hlast x hx
      rw [← inCutset_path] at this
      simpa using this
  have hfind : db.rows.find? (fun x => x.short_code == some (Trim r.Path "/ \n")) =
      some row := by
    rw [htrim]; exact hres
  have e := urlHandler_found db r row hfind hu
  refine ⟨e, ?_⟩
  rw [e]
  simp [ResponseWriter.HeaderValues]

/-- Witness for C3 as amended: the code "1" of a submitted url, wrapped in slashes,
spaces and newlines. -/
theorem urlHandler_redirects_trimmed_witness :
    (urlHandler none
        (run "http://x.co" DB.empty [Call.add (addRequest "http://example.com/page")]) {}
        { Path := "/ /1\n /" }).w =
      { header := [("Location", "http://example.com/page")], status := some 301, body := "" } ∧
    (urlHandler none
        (run "http://x.co" DB.empty [Call.add (addRequest "http://example.com/page")]) {}
        { Path := "/ /1\n /" }).w.HeaderValues "Location" = ["http://example.com/page"] :=
  urlHandler_redirects_trimmed
    (run "http://x.co" DB.empty [Call.add (addRequest "http://example.com/page")])
    "1" "/ /" "\n /" { id := 1, url := "http://example.com/page", short_code := some "1" }
    { Path := "/ /1\n /" } (by decide) (by decide) (by decide) (by decide) (by decide)
    (by decide) (by decide)

/-- C3 fails as stated: a tab is whitespace, yet the path `/1` followed by a tab is not
trimmed to the stored code "1" and `urlHandler` answers 404 without a Location header;
a stored code that itself starts with a space is never matched; and a row whose url is
empty is answered 404. -/
theorem urlHandler_tab_not_trimmed :
    (run "http://x.co" DB.empty [Call.add (addRequest "http://example.com/page")]).rows =
      [{ id := 1, url := "http://example.com/page", short_code := some "1" }] ∧
    (urlHandler none
        (run "http://x.co" DB.empty [Call.add (addRequest "http://example.com/page")]) {}
        { Path := "/1\t" }).w.status = some 404 ∧
    (urlHandler none
        (run "http://x.co" DB.empty [Call.add (addRequest "http://example.com/page")]) {}
        { Path := "/1\t" }).w.HeaderValues "Location" = [] ∧
    (urlHandler none
        { rows := [{ id := 1, url := "http://example.com/page", short_code := some " 1" }],
          autoIncrement := 2 } {} { Path := "/ 1" }).w.status = some 404 ∧
    (urlHandler none
        { rows := [{ id := 1, url := "", short_code := some "1" }], autoIncrement := 2 } {}
        { Path := "/1" }).w.status = some 404 := by
  decide

/-- C4: for every table, every storage outcome of the lookup and every request path
whose trimmed short code is the short code of no row, `urlHandler` answers 404 with the
fixed html body (and a newline), the only header being the content type: there is no
Location header, and the table is unchanged. -/
theorem urlHandler_unknown_code_404 (fault : Option String) (db : DB) (r : Request)
    (hmiss : ∀ row ∈ db.rows, row.short_code ≠ some (Trim r.Path "/ \n")) :
    (urlHandler fault db {} r).w =
      { header := [("Content-Type", "text/html")], status := some 404,
        body := notFoundMessage ++ "\n" } ∧
    (urlHandler fault db {} r).w.HeaderValues "Location" = [] ∧
    (urlHandler fault db {} r).db = db := by
  have e := urlHandler_missing fault db r (getUrlFromShortcode_missing fault db _ hmiss)
  refine ⟨e, ?_, (urlHandler_db fault db {} r).1⟩
  rw [e]
  decide

/-- Witness for C4: the path `/`, whose short code is empty, on a table with one row. -/
theorem urlHandler_unknown_code_404_witness :
    Trim "/" "/ \n" = "" ∧
    (urlHandler none
        (run "http://x.co" DB.empty [Call.add (addRequest "http://example.com/page")]) {}
        { Path := "/" }).w =
      { header := [("Content-Type", "text/html")], status := some 404,
        body := notFoundMessage ++ "\n" } ∧
    (urlHandler none
        (run "http://x.co" DB.empty [Call.add (addRequest "http://example.com/page")]) {}
        { Path := "/" }).w.HeaderValues "Location" = [] ∧
    (urlHandler none
        (run "http://x.co" DB.empty [Call.add (addRequest "http://example.com/page")]) {}
        { Path := "/" }).db =
      run "http://x.co" DB.empty [Call.add (addRequest "http://example.com/page")] :=
  ⟨by decide,
   urlHandler_unknown_code_404 none
     (run "http://x.co" DB.empty [Call.add (addRequest "http://example.com/page")])
     { Path := "/" } (by decide)⟩

/-- The steps of `addUrlHandler` that do check their error: a failing INSERT, a failing
`LastInsertId` and a failing UPDATE are each answered 500 with the message and a
newline. -/
theorem addUrlHandler_exec_error (baseUrl : String) (f : Faults) (db : DB) (r : Request)
    (e : String) (hq : f.query = none) (hurl : r.QueryGet "url" ≠ "")
    (hnew : ∀ row ∈ db.rows, row.url ≠ r.QueryGet "url")
    (herr : f.insert = some e ∨ (f.insert = none ∧ f.lastInsertId = some e) ∨
      (f.insert = none ∧ f.lastInsertId = none ∧ f.update = some e)) :
    (addUrlHandler baseUrl f db {} r).w =
      { header := [], status := some 500, body := e ++ "\n" } := by
  have hfind : db.rows.find? (fun x => x.url == r.QueryGet "url") = none := by
    rw [List.find?_eq_none]
    intro x hx
    simpa using hnew x hx
  unfold addUrlHandler
  rcases herr with h | ⟨h1, h2⟩ | ⟨h1, h2, h3⟩
  · simp [hurl, scanShortCode, hq, hfind, execInsert, h, fresh_500]
  · simp [hurl, scanShortCode, hq, hfind, execInsert, LastInsertId, h1, h2, fresh_500]
  · simp [hurl, scanShortCode, hq, hfind, execInsert, LastInsertId, execUpdate, h1, h2, h3,
      fresh_500]

/-- The step of `addUrlHandler` that does not check its error: when the lookup by url
fails with an error other than `ErrNoRows`, the handler answers 200 with an empty
short code. -/
theorem addUrlHandler_lookup_error (baseUrl : String) (f : Faults) (db : DB) (r : Request)
    (e : String) (hq : f.query = some e) (hurl : r.QueryGet "url" ≠ "") :
    addUrlHandler baseUrl f db {} r =
      { w := { header := [], status := some 200, body := baseUrl ++ "/" ++ "" ++ "\n" },
        db := db, stmts := [Stmt.selectShortCode (r.QueryGet "url")] } := by
  unfold addUrlHandler
  simp [hurl, scanShortCode, hq, ResponseWriter.WriteHeader, ResponseWriter.Fprintln]

/-- C5, the code at the failing input: the lookup by url fails with a storage error
(not `ErrNoRows`) and `addUrlHandler` answers 200 with body `http://x.co/` and a
newline, where the claim wants 500 with the error message. -/
theorem addUrlHandler_lookup_error_answers_200 :
    addUrlHandler "http://x.co" { query := some "connection refused" } DB.empty {}
        (addRequest "http://example.com/page") =
      { w := { header := [], status := some 200, body := "http://x.co/\n" },
        db := DB.empty, stmts := [Stmt.selectShortCode "http://example.com/page"] } := by
  decide

/-- C6 fails as stated: without a url parameter the body is not exactly the message;
it is the message followed by a newline. -/
theorem addUrlHandler_missing_url_body_newline :
    (addUrlHandler "http://x.co" Faults.free DB.empty {} { Path := "/add-url/" }).w.body ≠
      "Please specify a url parameter" ∧
    (addUrlHandler "http://x.co" Faults.free DB.empty {} { Path := "/add-url/" }).w.body =
      "Please specify a url parameter\n" := by
  decide

/-- C6, as amended: for every request whose query has no `url` parameter or an empty
first one, whatever the table and the storage errors, `addUrlHandler` answers 500 with
the body "Please specify a url parameter" followed by a newline, issues no statement
and leaves the table unchanged. -/
theorem addUrlHandler_requires_url (baseUrl : String) (f : Faults) (db : DB) (r : Request)
    (h : r.Query.lookup "url" = none ∨ r.Query.lookup "url" = some "") :
    (addUrlHandler baseUrl f db {} r).w.status = some 500 ∧
    (addUrlHandler baseUrl f db {} r).w.body = "Please specify a url parameter\n" ∧
    (addUrlHandler baseUrl f db {} r).w.header = [] ∧
    (addUrlHandler baseUrl f db {} r).stmts = [] ∧
    (addUrlHandler baseUrl f db {} r).db = db := by
  have hq : r.QueryGet "url" = "" := by
    rw [QueryGet_eq_lookup]
    rcases h with h | h <;> simp [h]
  rw [addUrlHandler_empty_url baseUrl f db r hq]
  have hbody : ErrSpecifyUrl ++ "\n" = "Please specify a url parameter\n" := by decide
  exact ⟨rfl, hbody, rfl, rfl, rfl⟩

/-- Witness for C6 as amended: an empty `url` parameter, a failing storage and a table
with one row. -/
theorem addUrlHandler_requires_url_witness :
    (addUrlHandler "http://x.co" { query := some "connection refused" }
        (run "http://x.co" DB.empty [Call.add (addRequest "http://example.com/page")]) {}
        { Path := "/add-url/", Query := [("x", "y"), ("url", "")] }).w.status = some 500 ∧
    (addUrlHandler "http://x.co" { query := some "connection refused" }
        (run "http://x.co" DB.empty [Call.add (addRequest "http://example.com/page")]) {}
        { Path := "/add-url/", Query := [("x", "y"), ("url", "")] }).w.body =
      "Please specify a url parameter\n" ∧
    (addUrlHandler "http://x.co" { query := some "connection refused" }
        (run "http://x.co" DB.empty [Call.add (addRequest "http://example.com/page")]) {}
        { Path := "/add-url/", Query := [("x", "y"), ("url", "")] }).w.header = [] ∧
    (addUrlHandler "http://x.co" { query := some "connection refused" }
        (run "http://x.co" DB.empty [Call.add (addRequest "http://example.com/page")]) {}
        { Path := "/add-url/", Query := [("x", "y"), ("url", "")] }).stmts = [] ∧
    (addUrlHandler "http://x.co" { query := some "connection refused" }
        (run "http://x.co" DB.empty [Call.add (addRequest "http://example.com/page")]) {}
        { Path := "/add-url/", Query := [("x", "y"), ("url", "")] }).db =
      run "http://x.co" DB.empty [Call.add (addRequest "http://example.com/page")] :=
  addUrlHandler_requires_url "http://x.co" { query := some "connection refused" }
    (run "http://x.co" DB.empty [Call.add (addRequest "http://example.com/page")])
    { Path := "/add-url/", Query := [("x", "y"), ("url", "")] } (Or.inr (by decide))

/-- C7: when a fault-free `addUrlHandler` creates a row (non-empty url held by no row of
a table satisfying the schema constraints), the row it appends has the id the storage
assigned and, as short code, `FormatInt` of that id in base 36, which is also the code
in the 200 answer; for every positive id that text is the base-36 numeral of the id
written with the digits 0-9 and the letters a-z; 36 gives "10" and 1295 gives "zz". -/
theorem addUrlHandler_short_code_base36 (baseUrl : String) (db : DB) (r : Request)
    (hvalid : db.Valid) (hurl : r.QueryGet "url" ≠ "")
    (hnew : ∀ row ∈ db.rows, row.url ≠ r.QueryGet "url") :
    (addUrlHandler baseUrl Faults.free db {} r).db.rows =
      db.rows ++ [{ id := db.autoIncrement, url := r.QueryGet "url",
                    short_code := some (FormatInt db.autoIncrement 36) }] ∧
    (addUrlHandler baseUrl Faults.free db {} r).w.status = some 200 ∧
    (addUrlHandler baseUrl Faults.free db {} r).w.body =
      baseUrl ++ "/" ++ FormatInt db.autoIncrement 36 ++ "\n" ∧
    (∀ n : Int, 0 < n →
      FormatInt n 36 = base36Encode n.toNat ∧ ∀ c ∈ (FormatInt n 36).data, isBase36Char c) ∧
    FormatInt 36 36 = "10" ∧ FormatInt 1295 36 = "zz" := by
  have hid : ∀ row ∈ db.rows, row.id ≠ db.autoIncrement := by
    intro row hrow
    have := hvalid.1 row hrow
    omega
  rw [addUrlHandler_new baseUrl db {} r hurl hnew hid, fresh_200]
  refine ⟨rfl, rfl, rfl, ?_, by decide, by decide⟩
  intro n hn
  exact ⟨FormatInt_eq_base36Encode n hn, (FormatInt_pos_chars n hn).2⟩

/-- Witness for C7: a table whose counter stands at 36. -/
theorem addUrlHandler_short_code_base36_witness :
    (addUrlHandler "http://x.co" Faults.free
        { rows := [{ id := 35, url := "http://example.com/", short_code := some "z" }],
          autoIncrement := 36 } {} (addRequest "http://example.com/page")).w.body =
      "http://x.co" ++ "/" ++ FormatInt 36 36 ++ "\n" :=
  (addUrlHandler_short_code_base36 "http://x.co"
    { rows := [{ id := 35, url := "http://example.com/", short_code := some "z" }],
      autoIncrement := 36 } (addRequest "http://example.com/page")
    (by decide) (by decide) (by decide)).2.2.1

/-- C8: the short code is a collision-free function of the identifier: distinct
identifiers have distinct base-36 texts, and in every table reached by fault-free
requests two rows with distinct ids have distinct short codes. -/
theorem short_code_collision_free (a b : Int) (hab : a ≠ b) :
    FormatInt a 36 ≠ FormatInt b 36 ∧
    ∀ (baseUrl : String) (calls : List Call),
      ∀ x ∈ (run baseUrl DB.empty calls).rows, ∀ y ∈ (run baseUrl DB.empty calls).rows,
        x.id ≠ y.id → x.short_code ≠ y.short_code := by
  refine ⟨fun h => hab (FormatInt_inj a b h), ?_⟩
  intro baseUrl calls x hx y hy hxy h
  have hinv := (run_Inv baseUrl calls DB.empty Inv_empty).1
  rw [(hinv.1 x hx).2.2.2, (hinv.1 y hy).2.2.2] at h
  exact hxy (FormatInt_inj _ _ (Option.some.inj h))

/-- Witness for C8: the identifiers 35 and 36. -/
theorem short_code_collision_free_witness :
    FormatInt 35 36 ≠ FormatInt 36 36 :=
  (short_code_collision_free 35 36 (by decide)).1

/-- Every 200 answer of `addUrlHandler`, whatever the table and the storage errors,
has a body of the form `baseUrl/<code>` followed by a newline. -/
theorem addUrlHandler_200_body (baseUrl : String) (f : Faults) (db : DB) (r : Request)
    (h : (addUrlHandler baseUrl f db {} r).w.status = some 200) :
    ∃ code : String, (addUrlHandler baseUrl f db {} r).w.body = baseUrl ++ "/" ++ code ++ "\n" := by
  revert h
  unfold addUrlHandler
  by_cases hurl : r.QueryGet "url" = ""
  · simp [hurl, fresh_500]
  · simp only [hurl, if_false]
    by_cases hrow : (scanShortCode f.query db (r.QueryGet "url")).2 = ScanErr.ErrNoRows
    · simp only [hrow, if_true]
      cases h1 : execInsert f.insert db (r.QueryGet "url") with
      | error e => simp [fresh_500]
      | ok v =>
        obtain ⟨db1, res⟩ := v
        cases h2 : LastInsertId f.lastInsertId res with
        | error e => simp [h2, fresh_500]
        | ok id =>
          cases h3 : execUpdate f.update db1 (FormatInt id 36) id with
          | error e => simp [h2, h3, fresh_500]
          | ok db2 =>
            intro _
            exact ⟨FormatInt id 36, by simp [h2, h3, fresh_200]⟩
    · simp only [hrow, if_false]
      intro _
      exact ⟨(scanShortCode f.query db (r.QueryGet "url")).1, by simp [fresh_200]⟩

/-- On a table satisfying the invariant, the code in a 200 answer of `addUrlHandler`
is made of digits and lowercase letters only, whatever the storage errors of the
request. -/
theorem addUrlHandler_200_code (baseUrl : String) (f : Faults) (db : DB) (r : Request)
    (hinv : Inv db) (h : (addUrlHandler baseUrl f db {} r).w.status = some 200) :
    ∃ code : String,
      (addUrlHandler baseUrl f db {} r).w.body = baseUrl ++ "/" ++ code ++ "\n" ∧
      ∀ c ∈ code.data, isBase36Char c := by
  revert h
  unfold addUrlHandler
  by_cases hurl : r.QueryGet "url" = ""
  · simp [hurl, fresh_500]
  · simp only [hurl, if_false]
    by_cases hrow : (scanShortCode f.query db (r.QueryGet "url")).2 = ScanErr.ErrNoRows
    · simp only [hrow, if_true]
      cases h1 : execInsert f.insert db (r.QueryGet "url") with
      | error e => simp [fresh_500]
      | ok v =>
        obtain ⟨db1, res⟩ := v
        have hres : res = db.autoIncrement := by
          unfold execInsert at h1
          cases hf : f.insert with
          | some m => simp [hf] at h1
          | none =>
            simp only [hf, Except.ok.injEq, Prod.mk.injEq] at h1
            exact h1.2.symm
        cases h2 : LastInsertId f.lastInsertId res with
        | error e => simp [h2, fresh_500]
        | ok id =>
          have hidres : id = res := by
            unfold LastInsertId at h2
            cases hf : f.lastInsertId with
            | some m => simp [hf] at h2
            | none =>
              simp only [hf, Except.ok.injEq] at h2
              exact h2.symm
          cases h3 : execUpdate f.update db1 (FormatInt id 36) id with
          | error e => simp [h2, h3, fresh_500]
          | ok db2 =>
            intro _
            refine ⟨FormatInt id 36, by simp [h2, h3, fresh_200], ?_⟩
            have hpos : 0 < id := by rw [hidres, hres]; exact hinv.2.2.2
            exact (FormatInt_pos_chars id hpos).2
    · simp only [hrow, if_false]
      intro _
      refine ⟨(scanShortCode f.query db (r.QueryGet "url")).1, by simp [fresh_200], ?_⟩
      unfold scanShortCode
      cases hq : f.query with
      | some m => simp
      | none =>
        cases hfind : db.rows.find? (fun x => x.url == r.QueryGet "url") with
        | none => simp
        | some row =>
          have hmem : row ∈ db.rows := List.mem_of_find?_eq_some hfind
          obtain ⟨hpos, _, _, hcode⟩ := hinv.1 row hmem
          simp only [hcode]
          exact (FormatInt_pos_chars row.id hpos).2

/-- C9: for every configured base-url string, the base url the handlers use is that
string without its trailing slashes (it does not end with a slash); every 200 answer of
`addUrlHandler` has the body `<base>/<code>` and a newline; in every table reached by
fault-free requests the code of a 200 answer holds digits and lowercase letters only
(no slash), and the code of a fault-free submission of a non-empty url is not empty: the
slash after the base is the only one between base and code.  The base-url
`http://x.co/` becomes `http://x.co`. -/
theorem base_url_single_slash (configured : String) (calls : List Call) (r : Request)
    (hurl : r.QueryGet "url" ≠ "") :
    (∃ k : Nat, configured = mainBaseUrl configured ++ ⟨List.replicate k '/'⟩) ∧
    (mainBaseUrl configured).data.getLast? ≠ some '/' ∧
    (∀ (f : Faults) (db : DB) (q : Request),
      (addUrlHandler (mainBaseUrl configured) f db {} q).w.status = some 200 →
      ∃ code : String, (addUrlHandler (mainBaseUrl configured) f db {} q).w.body =
        mainBaseUrl configured ++ "/" ++ code ++ "\n") ∧
    (∀ (f : Faults) (q : Request),
      (addUrlHandler (mainBaseUrl configured) f
          (run (mainBaseUrl configured) DB.empty calls) {} q).w.status = some 200 →
      ∃ code : String,
        (addUrlHandler (mainBaseUrl configured) f
            (run (mainBaseUrl configured) DB.empty calls) {} q).w.body =
          mainBaseUrl configured ++ "/" ++ code ++ "\n" ∧
        ∀ c ∈ code.data, isBase36Char c) ∧
    (∃ code : String,
      (addUrlHandler (mainBaseUrl configured) Faults.free
          (run (mainBaseUrl configured) DB.empty calls) {} r).w =
        { header := [], status := some 200,
          body := mainBaseUrl configured ++ "/" ++ code ++ "\n" } ∧
      code.data ≠ [] ∧ ∀ c ∈ code.data, isBase36Char c) ∧
    mainBaseUrl "http://x.co/" = "http://x.co" := by
  have hinv : Inv (run (mainBaseUrl configured) DB.empty calls) :=
    (run_Inv _ calls DB.empty Inv_empty).1
  refine ⟨(TrimRight_slash configured).1, (TrimRight_slash configured).2,
    fun f db q h => addUrlHandler_200_body _ f db q h,
    fun f q h => addUrlHandler_200_code _ f _ q hinv h, ?_, by decide⟩
  obtain ⟨row, tail, h1, _, hmem, _, hw⟩ := addUrlHandler_Inv (mainBaseUrl configured) _ r hinv hurl
  have hpos : 0 < row.id := ((show Inv _ from h1).1 row hmem).1
  exact ⟨FormatInt row.id 36, hw, FormatInt_pos_chars row.id hpos⟩

/-- Witness for C9: the configured base-url `http://x.co//` and a first submission. -/
theorem base_url_single_slash_witness :
    (addUrlHandler (mainBaseUrl "http://x.co//") Faults.free DB.empty {}
        (addRequest "http://example.com/page")).w.body = "http://x.co/1\n" ∧
    (∃ k : Nat, "http://x.co//" = mainBaseUrl "http://x.co//" ++ ⟨List.replicate k '/'⟩) :=
  ⟨by decide,
   (base_url_single_slash "http://x.co//" [] (addRequest "http://example.com/page")
     (by decide)).1⟩

/-- C10: in every table reached from the empty table by fault-free `urlHandler` and
`addUrlHandler` requests, no two rows share a url and no two rows share a short code
(every row has the code of its id), so a lookup by url and a lookup by short code
each match at most one row; `urlHandler` never changes any table and only issues its
SELECT; and every later fault-free request sequence keeps all existing rows, with
their short codes, in place (rows are only appended). -/
theorem storage_invariant (baseUrl : String) (calls later : List Call) :
    ((run baseUrl DB.empty calls).rows.map UrlRecord.url).Nodup ∧
    ((run baseUrl DB.empty calls).rows.map UrlRecord.short_code).Nodup ∧
    (∀ row ∈ (run baseUrl DB.empty calls).rows,
      row.short_code = some (FormatInt row.id 36)) ∧
    (∀ u : String,
      ((run baseUrl DB.empty calls).rows.filter (fun row => row.url == u)).length ≤ 1) ∧
    (∀ c : String,
      ((run baseUrl DB.empty calls).rows.filter
        (fun row => row.short_code == some c)).length ≤ 1) ∧
    (∀ (fault : Option String) (db : DB) (w : ResponseWriter) (q : Request),
      (urlHandler fault db w q).db = db ∧
      (urlHandler fault db w q).stmts = [Stmt.selectUrl (Trim q.Path "/ \n")]) ∧
    (run baseUrl DB.empty calls).rows <+:
      (run baseUrl (run baseUrl DB.empty calls) later).rows := by
  have hinv := (run_Inv baseUrl calls DB.empty Inv_empty).1
  have hcodes := Inv_codes_nodup _ hinv
  refine ⟨hinv.2.2.1, hcodes, fun row hrow => (hinv.1 row hrow).2.2.2, ?_, ?_, ?_, ?_⟩
  · intro u
    exact filter_length_le_one UrlRecord.url _ u hinv.2.2.1
  · intro c
    exact filter_length_le_one UrlRecord.short_code _ (some c) hcodes
  · intro fault db w q
    exact urlHandler_db fault db w q
  · obtain ⟨tail, ht⟩ := (run_Inv baseUrl later _ hinv).2
    exact ⟨tail, ht.symm⟩

end GoShort
